import Mathlib

/-!
Verification of the GBMM Mission Control client-side engine
(`src/unnamed/part_000`, the v1.1 client, and `src/app.js`, the v1.0 client).

The data model and the operations are shallow embeddings of the
JavaScript source: tasks and the session store become Lean structures,
the mutation handlers become pure state-transforming functions, and the
debounced persistence layer becomes an explicit event-step relation.
-/

namespace MC

/-- A task record, after the persisted document shape
(`id`, `title`, `project`, `assignee`, `status`, `priority`, `deadline`,
`effort`, `progress`, `nextAction`, `tags`, `notes`, `createdAt`,
`updatedAt`).  `deadline` is nullable in the JSON document, hence
`Option String`; `progress` is a 0–100 integer, modelled as `Nat`. -/
structure Task where
  id : String
  title : String
  project : String
  assignee : String
  status : String
  priority : String
  deadline : Option String
  effort : String
  progress : Nat
  nextAction : String
  tags : List String
  notes : String
  createdAt : String
  updatedAt : String
deriving DecidableEq, Repr

/-- The `settings` object of the persisted document. -/
structure Settings where
  theme : String
  defaultView : String
  defaultCalendarView : String
deriving DecidableEq, Repr

/-- The session root (`this.data`): tasks, reference lists, settings and
`meta.lastSync`. -/
structure Store where
  tasks : List Task
  projects : List String
  assignees : List String
  settings : Settings
  lastSync : String
deriving DecidableEq, Repr

/-- v1.1 filter predicate, from `applyFilters` in `src/unnamed/part_000`
(lines 525–538): a task is dropped as soon as one non-"all" filter value
differs from the corresponding task field. -/
def filterPred (assigneeFilter projectFilter priorityFilter : String)
    (task : Task) : Bool :=
  if assigneeFilter != "all" && task.assignee != assigneeFilter then false
  else if projectFilter != "all" && task.project != projectFilter then false
  else if priorityFilter != "all" && task.priority != priorityFilter then false
  else true

/-- v1.1 `applyFilters` applied to the task list (`this.data.tasks`). -/
def applyFilters (tasks : List Task)
    (assigneeFilter projectFilter priorityFilter : String) : List Task :=
  tasks.filter (filterPred assigneeFilter projectFilter priorityFilter)

/-- v1.0 filter predicate, from `applyFilters` in `src/app.js`
(lines 360–373): the filter values are lists of selected options and the
tests are membership tests. -/
def filterPredV10 (assigneeFilter projectFilter priorityFilter : List String)
    (task : Task) : Bool :=
  if !assigneeFilter.contains "all" && !assigneeFilter.contains task.assignee then false
  else if !projectFilter.contains "all" && !projectFilter.contains task.project then false
  else if !priorityFilter.contains "all" && !priorityFilter.contains task.priority then false
  else true

/-- v1.0 `applyFilters` applied to the task list. -/
def applyFiltersV10 (tasks : List Task)
    (assigneeFilter projectFilter priorityFilter : List String) : List Task :=
  tasks.filter (filterPredV10 assigneeFilter projectFilter priorityFilter)

/-- `this.data.tasks.find(t => t.id === taskId)`, used by every mutation
that looks a task up by id. -/
def findTask (tasks : List Task) (taskId : String) : Option Task :=
  tasks.find? (fun t => t.id == taskId)

/-- JavaScript's `find` returns a reference to the first matching element
and the handlers mutate that element in place; `updateFirst p f` applies
`f` to the first element satisfying `p` and keeps the rest. -/
def updateFirst (p : Task → Bool) (f : Task → Task) : List Task → List Task
  | [] => []
  | t :: rest => if p t then f t :: rest else t :: updateFirst p f rest

/-- `updateTaskStatus` from `src/unnamed/part_000` (lines 345–355): the
drag-drop status transition.  Sets `status`; forces `progress = 100`
exactly when the new status is `"done"`; re-stamps `updatedAt` with the
current time (passed in as `now`).  When no task has the id, nothing
happens. -/
def updateTaskStatus (store : Store) (taskId newStatus now : String) : Store :=
  match findTask store.tasks taskId with
  | none => store
  | some _ =>
    { store with
      tasks := updateFirst (fun t => t.id == taskId)
        (fun t =>
          { t with
            status := newStatus
            progress := if newStatus == "done" then 100 else t.progress
            updatedAt := now })
        store.tasks }

/-- `quickComplete` from `src/unnamed/part_000` (lines 272–283): the
hover quick action.  Sets `status = "done"`, `progress = 100`, re-stamps
`updatedAt`; a missing id leaves the store untouched. -/
def quickComplete (store : Store) (taskId now : String) : Store :=
  match findTask store.tasks taskId with
  | none => store
  | some _ =>
    { store with
      tasks := updateFirst (fun t => t.id == taskId)
        (fun t => { t with status := "done", progress := 100, updatedAt := now })
        store.tasks }

/-- `duplicateTask` from `src/unnamed/part_000` (lines 700–710): clones
the found task with a fresh id (`task-${Date.now()}`, passed in as
`newId`) and the title suffixed `" (Copy)"`, pushing the clone at the end
of the list; a missing id leaves the store untouched. -/
def duplicateTask (store : Store) (taskId newId : String) : Store :=
  match findTask store.tasks taskId with
  | none => store
  | some t =>
    { store with
      tasks := store.tasks ++ [{ t with id := newId, title := t.title ++ " (Copy)" }] }

/-- The field assignment `task[field] = e.target.value` in the detail
editor (`openTaskDetail`, `src/unnamed/part_000` lines 669–681).  The
JavaScript assigns the raw string from the input; for the typed fields the
assigned string is modelled by its value (`progress` by its numeric value,
a cleared date input by `none`).  Note that no field triggers the
done→progress invariant here. -/
def setField (t : Task) (field value : String) : Task :=
  if field == "title" then { t with title := value }
  else if field == "project" then { t with project := value }
  else if field == "assignee" then { t with assignee := value }
  else if field == "status" then { t with status := value }
  else if field == "priority" then { t with priority := value }
  else if field == "progress" then { t with progress := (value.toNat?).getD 0 }
  else if field == "deadline" then
    { t with deadline := if value == "" then none else some value }
  else if field == "nextAction" then { t with nextAction := value }
  else if field == "notes" then { t with notes := value }
  else t

/-- The detail-editor change handler installed by `openTaskDetail`
(`src/unnamed/part_000` lines 669–681): writes the edited field into the
task found by id and re-stamps `updatedAt`.  `openTaskDetail` returns
early when the id is absent, so the handler only ever targets a present
task; an absent id is a no-op. -/
def editorFieldChange (store : Store) (taskId field value now : String) : Store :=
  match findTask store.tasks taskId with
  | none => store
  | some _ =>
    { store with
      tasks := updateFirst (fun t => t.id == taskId)
        (fun t => { setField t field value with updatedAt := now })
        store.tasks }

/-- `removeAssignee` from `src/unnamed/part_000` (lines 751–755):
`this.data.assignees = this.data.assignees.filter(a => a !== name)`. -/
def removeAssignee (store : Store) (name : String) : Store :=
  { store with assignees := store.assignees.filter (fun a => a != name) }

/-- `removeProject` from `src/unnamed/part_000` (lines 757–761):
`this.data.projects = this.data.projects.filter(p => p !== name)`. -/
def removeProject (store : Store) (name : String) : Store :=
  { store with projects := store.projects.filter (fun p => p != name) }

/-- `a == b && isPrefixList as bs` check: `needle` is an initial segment
of `hay`. -/
def isPrefixList (needle hay : List Char) : Bool :=
  match needle, hay with
  | [], _ => true
  | _ :: _, [] => false
  | a :: as, b :: bs => a == b && isPrefixList as bs

/-- Contiguous-substring containment on character lists, the semantics of
JavaScript's `String.prototype.includes`. -/
def containsSub (needle hay : List Char) : Bool :=
  match hay with
  | [] => needle.isEmpty
  | _ :: t => isPrefixList needle hay || containsSub needle t

/-- `s.includes(sub)` on strings. -/
def strIncludes (s sub : String) : Bool :=
  containsSub sub.data s.data

/-- The search predicate from `search` in `src/unnamed/part_000`
(lines 540–553), applied after the query has been lowercased: disjunctive
case-insensitive substring match over `title`, `notes`, `project`. -/
def searchMatches (loweredQuery : String) (t : Task) : Bool :=
  strIncludes t.title.toLower loweredQuery
    || strIncludes t.notes.toLower loweredQuery
    || strIncludes t.project.toLower loweredQuery

/-- The single-select filter dropdown values read by v1.1
`applyFilters`. -/
structure FilterSel where
  assignee : String
  project : String
  priority : String
deriving DecidableEq, Repr

/-- The slice of the session relevant to the filter/search engine:
`this.data.tasks`, the current filter dropdown values, and
`this.filteredTasks`. -/
structure ViewState where
  tasks : List Task
  filters : FilterSel
  filteredTasks : List Task
deriving DecidableEq, Repr

/-- v1.1 `applyFilters` as a transition on the view state: recomputes
`this.filteredTasks` from `this.data.tasks` and the dropdowns. -/
def applyFiltersState (st : ViewState) : ViewState :=
  { st with
    filteredTasks :=
      applyFilters st.tasks st.filters.assignee st.filters.project st.filters.priority }

/-- `search` from `src/unnamed/part_000` (lines 540–553): an empty query
falls back to `applyFilters()`; otherwise the query is lowercased and
`this.filteredTasks` is recomputed from the full `this.data.tasks` by the
disjunctive substring predicate. -/
def search (st : ViewState) (query : String) : ViewState :=
  if query == "" then applyFiltersState st
  else { st with filteredTasks := st.tasks.filter (searchMatches query.toLower) }

/-- The debounce window of `saveData` (`setTimeout(doSave, 1000)`). -/
def debounceMs : Int := 1000

/-- The autosave period of `startAutoSave` (`setInterval(…, 30000)`). -/
def autosaveMs : Int := 30000

/-- The observable state of the persistence bridge: the deadline of the
single pending debounce timer (`this.saveTimeout`), and counters of the
writes performed so far (`localStorage.setItem` calls and remote `POST
/api/data` sends). -/
structure SaveState where
  pending : Option Int
  localWrites : Nat
  remoteWrites : Nat
deriving DecidableEq, Repr

/-- `saveData(immediate)` from `src/unnamed/part_000` (lines 47–80),
invoked at time `now` (ms): clear any pending debounce timer, write the
serialized store to the offline cache, then either perform the remote
write now (`immediate = true`) or (re)arm the debounce timer to fire at
`now + 1000`. -/
def saveData (now : Int) (immediate : Bool) (s : SaveState) : SaveState :=
  let s := { s with pending := none, localWrites := s.localWrites + 1 }
  if immediate then { s with remoteWrites := s.remoteWrites + 1 }
  else { s with pending := some (now + debounceMs) }

/-- The runtime attempting a scheduled debounce callback at time `now`:
the callback runs (performing the remote write) only if the timer is
still armed for exactly this deadline; a timer that was cleared or
superseded does not fire. -/
def timerFire (now : Int) (s : SaveState) : SaveState :=
  match s.pending with
  | some d => if d == now then { s with pending := none, remoteWrites := s.remoteWrites + 1 } else s
  | none => s

/-- An event observable by the persistence bridge: a `saveData` call or a
timer callback attempt. -/
inductive SaveEvent where
  | save (now : Int) (immediate : Bool)
  | fire (now : Int)
deriving DecidableEq, Repr

/-- One event-loop step. -/
def stepEvent (s : SaveState) (e : SaveEvent) : SaveState :=
  match e with
  | .save n i => saveData n i s
  | .fire n => timerFire n s

/-- Run a time-ordered trace of events. -/
def runEvents (s : SaveState) (es : List SaveEvent) : SaveState :=
  es.foldl stepEvent s

/-- The `k`-th tick of the `startAutoSave` interval
(`src/unnamed/part_000` lines 83–87): at time `30000 * (k+1)` it calls
`saveData(true)`. -/
def autosaveTick (k : Nat) (s : SaveState) : SaveState :=
  saveData (autosaveMs * (Int.ofNat k + 1)) true s

/-- Milliseconds in a day, the divisor in `formatDeadline`. -/
def msPerDay : Int := 1000 * 60 * 60 * 24

/-- `setHours(0,0,0,0)` on a timestamp `t` (ms since epoch, UTC assumed):
subtract the nonnegative milliseconds elapsed since midnight. -/
def setMidnight (t : Int) : Int :=
  t - t % msPerDay

/-- The calendar-day index of a timestamp. -/
def dayIndex (t : Int) : Int :=
  t / msPerDay

/-- The deadline badge classification from `formatDeadline`
(`src/unnamed/part_000` lines 294–306 and `src/app.js` lines 167–179):
normalize deadline and now to midnight, divide the difference by a day
(exact, since both are midnight-aligned; the JavaScript `/` is real
division) and classify by the sign of the result. -/
def deadlineClass (deadline now : Int) : String :=
  let date := setMidnight deadline
  let today := setMidnight now
  let diff := (date - today) / msPerDay
  if diff < 0 then "overdue"
  else if diff == 0 then "today"
  else "future"

/-- Whether a (proleptic Gregorian) year is a leap year. -/
def isLeap (y : Nat) : Bool :=
  (y % 4 == 0 && y % 100 != 0) || y % 400 == 0

/-- Days in month `m` (1-based) of year `y`. -/
def daysInMonth (y m : Nat) : Nat :=
  if m == 2 then (if isLeap y then 29 else 28)
  else if m == 4 || m == 6 || m == 9 || m == 11 then 30
  else 31

/-- Days from 1970-01-01 to year-month-day (for `y ≥ 1970`). -/
def daysSinceEpoch (y m d : Nat) : Nat :=
  (List.range (y - 1970)).foldl (fun acc i => acc + (if isLeap (1970 + i) then 366 else 365)) 0
    + (List.range (m - 1)).foldl (fun acc i => acc + daysInMonth y (i + 1)) 0
    + (d - 1)

/-- The timestamp `new Date("YYYY-MM-DD")` parses to: UTC midnight of
that calendar date. -/
def msOfDate (y m d : Nat) : Int :=
  (daysSinceEpoch y m d : Int) * msPerDay

/-- A JSON value, the common currency of `JSON.stringify`/`JSON.parse`,
the offline cache slot and the remote API body. -/
inductive Json where
  | null : Json
  | jstr : String → Json
  | jnum : Int → Json
  | jbool : Bool → Json
  | jarr : List Json → Json
  | jobj : List (String × Json) → Json

/-- Object field lookup (first binding wins). -/
def getField (fs : List (String × Json)) (k : String) : Option Json :=
  match fs with
  | [] => none
  | (k', v) :: rest => if k' == k then some v else getField rest k

/-- Read a JSON string. -/
def asStr : Json → Option String
  | .jstr s => some s
  | _ => none

/-- Read a nullable JSON string (the `deadline` field). -/
def asOptStr : Json → Option (Option String)
  | .null => some none
  | .jstr s => some (some s)
  | _ => none

/-- Read a nonnegative JSON number (the `progress` field). -/
def asNat : Json → Option Nat
  | .jnum (Int.ofNat n) => some n
  | _ => none

/-- Read an array of strings (the `tags`, `projects`, `assignees`
fields). -/
def decodeStrs : List Json → Option (List String)
  | [] => some []
  | .jstr s :: rest => (decodeStrs rest).map (fun l => s :: l)
  | _ => none

/-- Serialize a task to the persisted document shape. -/
def encodeTask (t : Task) : Json :=
  .jobj [("id", .jstr t.id), ("title", .jstr t.title),
    ("project", .jstr t.project), ("assignee", .jstr t.assignee),
    ("status", .jstr t.status), ("priority", .jstr t.priority),
    ("deadline", match t.deadline with | none => .null | some d => .jstr d),
    ("effort", .jstr t.effort), ("progress", .jnum (Int.ofNat t.progress)),
    ("nextAction", .jstr t.nextAction),
    ("tags", .jarr (t.tags.map .jstr)), ("notes", .jstr t.notes),
    ("createdAt", .jstr t.createdAt), ("updatedAt", .jstr t.updatedAt)]

/-- Read a task back from its persisted shape. -/
def decodeTask (j : Json) : Option Task :=
  match j with
  | .jobj fs => do
    let id ← getField fs "id" >>= asStr
    let title ← getField fs "title" >>= asStr
    let project ← getField fs "project" >>= asStr
    let assignee ← getField fs "assignee" >>= asStr
    let status ← getField fs "status" >>= asStr
    let priority ← getField fs "priority" >>= asStr
    let deadline ← getField fs "deadline" >>= asOptStr
    let effort ← getField fs "effort" >>= asStr
    let progress ← getField fs "progress" >>= asNat
    let nextAction ← getField fs "nextAction" >>= asStr
    let tags ← getField fs "tags" >>= fun j =>
      match j with | .jarr xs => decodeStrs xs | _ => none
    let notes ← getField fs "notes" >>= asStr
    let createdAt ← getField fs "createdAt" >>= asStr
    let updatedAt ← getField fs "updatedAt" >>= asStr
    some ({ id := id
            title := title
            project := project
            assignee := assignee
            status := status
            priority := priority
            deadline := deadline
            effort := effort
            progress := progress
            nextAction := nextAction
            tags := tags
            notes := notes
            createdAt := createdAt
            updatedAt := updatedAt } : Task)
  | _ => none

/-- Serialize a list of tasks. -/
def encodeTasks (ts : List Task) : List Json :=
  ts.map encodeTask

/-- Read a list of tasks back. -/
def decodeTasks : List Json → Option (List Task)
  | [] => some []
  | j :: rest => do
    let t ← decodeTask j
    let ts ← decodeTasks rest
    some (t :: ts)

/-- `JSON.stringify(this.data)`: the persisted document of a store
(shape of section 6 of the document: `meta`, `settings`, `projects`,
`assignees`, `tasks`). -/
def encodeStore (s : Store) : Json :=
  .jobj [("meta", .jobj [("lastSync", .jstr s.lastSync)]),
    ("settings", .jobj [("theme", .jstr s.settings.theme),
      ("defaultView", .jstr s.settings.defaultView),
      ("defaultCalendarView", .jstr s.settings.defaultCalendarView)]),
    ("projects", .jarr (s.projects.map .jstr)),
    ("assignees", .jarr (s.assignees.map .jstr)),
    ("tasks", .jarr (encodeTasks s.tasks))]

/-- Read a full store back from a persisted document. -/
def decodeStore (j : Json) : Option Store :=
  match j with
  | .jobj fs => do
    let lastSync ← getField fs "meta" >>= fun m =>
      match m with | .jobj ms => getField ms "lastSync" >>= asStr | _ => none
    let settings ← getField fs "settings" >>= fun v =>
      match v with
      | .jobj ss => do
        let theme ← getField ss "theme" >>= asStr
        let defaultView ← getField ss "defaultView" >>= asStr
        let defaultCalendarView ← getField ss "defaultCalendarView" >>= asStr
        some ({ theme := theme
                defaultView := defaultView
                defaultCalendarView := defaultCalendarView } : Settings)
      | _ => none
    let projects ← getField fs "projects" >>= fun v =>
      match v with | .jarr xs => decodeStrs xs | _ => none
    let assignees ← getField fs "assignees" >>= fun v =>
      match v with | .jarr xs => decodeStrs xs | _ => none
    let tasks ← getField fs "tasks" >>= fun v =>
      match v with | .jarr xs => decodeTasks xs | _ => none
    some ({ tasks := tasks
            projects := projects
            assignees := assignees
            settings := settings
            lastSync := lastSync } : Store)
  | _ => none

/-- The offline-cache write performed unconditionally at the top of
`saveData` (`localStorage.setItem('missionControlData',
JSON.stringify(this.data))`, `src/unnamed/part_000` line 51): it happens
whether or not the remote write later succeeds. -/
def saveOffline (store : Store) : Json :=
  encodeStore store

/-- `loadData` from `src/unnamed/part_000` (lines 24–44), as a function
of the reachable remote document and the offline cache slot: adopt the
remote document when the fetch succeeds, otherwise fall back to the
cache; with neither, the load fails (error toast, no store). -/
def loadData (remote : Option Json) (cache : Option Json) : Option Store :=
  match remote with
  | some j => decodeStore j
  | none =>
    match cache with
    | some j => decodeStore j
    | none => none

/-- `filterPred` unfolded to its conjunctive normal form. -/
theorem filterPred_eq (a p pr : String) (t : Task) :
    filterPred a p pr t =
      ((a == "all" || t.assignee == a) && (p == "all" || t.project == p)
        && (pr == "all" || t.priority == pr)) := by
  simp only [filterPred]
  by_cases ha : a = "all" <;> by_cases hta : t.assignee = a <;>
    by_cases hp : p = "all" <;> by_cases htp : t.project = p <;>
      by_cases hpr : pr = "all" <;> by_cases htpr : t.priority = pr <;>
        simp [ha, hta, hp, htp, hpr, htpr]

/-- A concrete task (the scenario task of the spec, mid-flight with a
partial progress). -/
def sampleTask : Task :=
  { id := "task-1"
    title := "Design review"
    project := "Launch"
    assignee := "Dana"
    status := "doing"
    priority := "p1"
    deadline := some "2025-06-01"
    effort := "medium"
    progress := 50
    nextAction := "Prepare slides"
    tags := []
    notes := "Quarterly launch review"
    createdAt := "2025-05-01T09:00:00Z"
    updatedAt := "2025-05-01T09:00:00Z" }

/-- A concrete session store around `sampleTask`. -/
def sampleStore : Store :=
  { tasks := [sampleTask]
    projects := ["Launch", "Ops"]
    assignees := ["Dana", "Alex"]
    settings := { theme := "dark", defaultView := "kanban", defaultCalendarView := "month" }
    lastSync := "2025-05-01T09:00:00Z" }

/-- A concrete view state over `sampleStore` with no active filters. -/
def sampleView : ViewState :=
  { tasks := [sampleTask]
    filters := { assignee := "all", project := "all", priority := "all" }
    filteredTasks := [] }

/-- C2: v1.1 `applyFilters` returns a sublist of the full task list; every
returned task string-equals each filter value that is not `"all"`; and
with all three filters at `"all"` the output is the full task list. -/
theorem applyFilters_conjunctive_sound (tasks : List Task) (a p pr : String) :
    (applyFilters tasks a p pr).Sublist tasks ∧
    (∀ t ∈ applyFilters tasks a p pr,
      (a ≠ "all" → t.assignee = a) ∧ (p ≠ "all" → t.project = p) ∧
      (pr ≠ "all" → t.priority = pr)) ∧
    (a = "all" → p = "all" → pr = "all" → applyFilters tasks a p pr = tasks) := by
  refine ⟨List.filter_sublist tasks, ?_, ?_⟩
  · intro t ht
    rw [applyFilters, List.mem_filter, filterPred_eq] at ht
    obtain ⟨-, hpred⟩ := ht
    simp only [Bool.and_eq_true, Bool.or_eq_true, beq_iff_eq] at hpred
    obtain ⟨⟨ha, hp⟩, hpr⟩ := hpred
    exact ⟨fun h => (ha.resolve_left h), fun h => (hp.resolve_left h),
      fun h => (hpr.resolve_left h)⟩
  · rintro rfl rfl rfl
    rw [applyFilters, List.filter_eq_self]
    intro t _
    rw [filterPred_eq]
    simp

/-- C2 witness: on the concrete store with the assignee filter set to
`"Dana"`, the returned task matches it; and all-"all" returns everything. -/
theorem applyFilters_conjunctive_sound_witness :
    sampleTask.assignee = "Dana" ∧
    applyFilters [sampleTask] "all" "all" "all" = [sampleTask] :=
  ⟨((applyFilters_conjunctive_sound [sampleTask] "Dana" "all" "all").2.1 sampleTask
      (by decide)).1 (by decide),
    (applyFilters_conjunctive_sound [sampleTask] "all" "all" "all").2.2 rfl rfl rfl⟩

/-- `==` on strings is symmetric. -/
theorem beqComm (x y : String) : (x == y) = (y == x) := by
  by_cases h : x = y
  · subst h; rfl
  · have h' : ¬ (y = x) := fun hh => h hh.symm
    simp [h, h']

/-- The v1.0 membership predicate on singleton selections agrees with the
v1.1 equality predicate. -/
theorem filterPredV10_singleton (a p pr : String) (t : Task) :
    filterPredV10 [a] [p] [pr] t = filterPred a p pr t := by
  simp only [filterPredV10, filterPred, List.contains_cons, List.contains_nil,
    Bool.or_false, bne]
  rw [beqComm "all" a, beqComm "all" p, beqComm "all" pr]

/-- C9: the v1.0 multi-select filter applied to singleton selections
computes the same visible set as the v1.1 single-select filter. -/
theorem applyFiltersV10_singleton_refines (tasks : List Task) (a p pr : String) :
    applyFiltersV10 tasks [a] [p] [pr] = applyFilters tasks a p pr := by
  rw [applyFiltersV10, applyFilters]
  apply List.filter_congr
  intro t _
  exact filterPredV10_singleton a p pr t

/-- C6: a non-empty query makes the visible set exactly the tasks with a
case-insensitive substring hit in title, notes or project, computed from
the full task list regardless of the current filter selection; the empty
query re-applies the current filter selection; and running the same query
twice yields the same visible set. -/
theorem search_disjunctive_idempotent (st : ViewState) (q : String) :
    (q ≠ "" → ∀ t, t ∈ (search st q).filteredTasks ↔
      t ∈ st.tasks ∧
        (strIncludes t.title.toLower q.toLower = true ∨
          strIncludes t.notes.toLower q.toLower = true ∨
          strIncludes t.project.toLower q.toLower = true)) ∧
    ((search st "").filteredTasks =
      applyFilters st.tasks st.filters.assignee st.filters.project st.filters.priority) ∧
    (q ≠ "" → ∀ st' : ViewState, st'.tasks = st.tasks →
      (search st' q).filteredTasks = (search st q).filteredTasks) ∧
    ((search (search st q) q).filteredTasks = (search st q).filteredTasks) := by
  refine ⟨?_, ?_, ?_, ?_⟩
  · intro hq t
    have hq' : (q == "") = false := by simp [hq]
    rw [search, hq']
    simp only [Bool.false_eq_true, if_false, List.mem_filter, searchMatches,
      Bool.or_eq_true]
    tauto
  · rfl
  · intro hq st' hst
    have hq' : (q == "") = false := by simp [hq]
    rw [search, search, hq', hst]
    simp
  · by_cases hq : q = ""
    · subst hq
      rfl
    · have hq' : (q == "") = false := by simp [hq]
      rw [search, search, hq']
      simp

/-- C6 witness: on the concrete view, searching `"Design"` (twice) finds
the sample task, whose title contains it case-insensitively. -/
theorem search_disjunctive_idempotent_witness :
    (sampleTask ∈ (search sampleView "Design").filteredTasks ↔
      sampleTask ∈ sampleView.tasks ∧
        (strIncludes sampleTask.title.toLower ("Design").toLower = true ∨
          strIncludes sampleTask.notes.toLower ("Design").toLower = true ∨
          strIncludes sampleTask.project.toLower ("Design").toLower = true)) ∧
    ((search (search sampleView "Design") "Design").filteredTasks =
      (search sampleView "Design").filteredTasks) :=
  ⟨(search_disjunctive_idempotent sampleView "Design").1 (by decide) sampleTask,
    (search_disjunctive_idempotent sampleView "Design").2.2.2⟩

/-- C8: removing a project (resp. assignee) name removes every occurrence
of it from the projects (resp. assignees) list, keeps every other entry,
and leaves the tasks, the other reference list, the settings and
`meta.lastSync` untouched — in particular tasks referencing the removed
name keep their dangling reference. -/
theorem remove_reference_frame (store : Store) (name : String) :
    (name ∉ (removeProject store name).projects ∧
      (∀ x ∈ store.projects, x ≠ name → x ∈ (removeProject store name).projects) ∧
      (removeProject store name).tasks = store.tasks ∧
      (removeProject store name).assignees = store.assignees ∧
      (removeProject store name).settings = store.settings ∧
      (removeProject store name).lastSync = store.lastSync) ∧
    (name ∉ (removeAssignee store name).assignees ∧
      (∀ x ∈ store.assignees, x ≠ name → x ∈ (removeAssignee store name).assignees) ∧
      (removeAssignee store name).tasks = store.tasks ∧
      (removeAssignee store name).projects = store.projects ∧
      (removeAssignee store name).settings = store.settings ∧
      (removeAssignee store name).lastSync = store.lastSync) := by
  constructor
  · refine ⟨?_, ?_, rfl, rfl, rfl, rfl⟩
    · intro hmem
      rw [removeProject] at hmem
      simp only [List.mem_filter, bne_self_eq_false, Bool.false_eq_true,
        and_false] at hmem
    · intro x hx hne
      rw [removeProject]
      simp only [List.mem_filter]
      exact ⟨hx, by simp [bne, hne]⟩
  · refine ⟨?_, ?_, rfl, rfl, rfl, rfl⟩
    · intro hmem
      rw [removeAssignee] at hmem
      simp only [List.mem_filter, bne_self_eq_false, Bool.false_eq_true,
        and_false] at hmem
    · intro x hx hne
      rw [removeAssignee]
      simp only [List.mem_filter]
      exact ⟨hx, by simp [bne, hne]⟩

/-- C8 witness: removing `"Launch"` from the concrete store empties it
from the projects list, keeps `"Ops"`, and leaves the task that still
references `"Launch"` untouched. -/
theorem remove_reference_frame_witness :
    "Launch" ∉ (removeProject sampleStore "Launch").projects ∧
    "Ops" ∈ (removeProject sampleStore "Launch").projects ∧
    (removeProject sampleStore "Launch").tasks = sampleStore.tasks :=
  ⟨(remove_reference_frame sampleStore "Launch").1.1,
    (remove_reference_frame sampleStore "Launch").1.2.1 "Ops" (by decide) (by decide),
    (remove_reference_frame sampleStore "Launch").1.2.2.1⟩

/-- C7: a mutation referencing a task id not present in the list is a
no-op — `updateTaskStatus` and `duplicateTask` return the store
unchanged. -/
theorem missing_id_mutations_noop (store : Store) (taskId : String)
    (h : ∀ t ∈ store.tasks, t.id ≠ taskId) :
    (∀ newStatus now, updateTaskStatus store taskId newStatus now = store) ∧
    (∀ newId, duplicateTask store taskId newId = store) := by
  have hfind : findTask store.tasks taskId = none := by
    rw [findTask, List.find?_eq_none]
    intro t ht
    simp [h t ht]
  constructor
  · intro newStatus now
    rw [updateTaskStatus, hfind]
  · intro newId
    rw [duplicateTask, hfind]

/-- C7 witness: mutating a missing id on the concrete store changes
nothing. -/
theorem missing_id_mutations_noop_witness :
    updateTaskStatus sampleStore "task-404" "done" "2025-06-02T00:00:00Z" = sampleStore ∧
    duplicateTask sampleStore "task-404" "task-9" = sampleStore :=
  ⟨(missing_id_mutations_noop sampleStore "task-404" (by decide)).1 "done"
      "2025-06-02T00:00:00Z",
    (missing_id_mutations_noop sampleStore "task-404" (by decide)).2 "task-9"⟩

/-- `find?` over a list whose first match is the head of the tail part. -/
theorem find?_first (p : Task → Bool) (pre post : List Task) (t0 : Task)
    (hpre : ∀ t ∈ pre, p t = false) (ht0 : p t0 = true) :
    (pre ++ t0 :: post).find? p = some t0 := by
  induction pre with
  | nil => simp [List.find?, ht0]
  | cons a rest ih =>
    have ha : p a = false := hpre a (by simp)
    simp only [List.cons_append, List.find?, ha]
    exact ih (fun t ht => hpre t (by simp [ht]))

/-- `updateFirst` over a list whose first match is the head of the tail
part updates exactly that element. -/
theorem updateFirst_first (p : Task → Bool) (f : Task → Task)
    (pre post : List Task) (t0 : Task)
    (hpre : ∀ t ∈ pre, p t = false) (ht0 : p t0 = true) :
    updateFirst p f (pre ++ t0 :: post) = pre ++ f t0 :: post := by
  induction pre with
  | nil => simp [updateFirst, ht0]
  | cons a rest ih =>
    have ha : p a = false := hpre a (by simp)
    simp only [List.cons_append, updateFirst, ha]
    simp only [Bool.false_eq_true, if_false, List.cons.injEq, true_and]
    exact ih (fun t ht => hpre t (by simp [ht]))

/-- When the update function preserves the match predicate, the first
match of the updated list is the update of the first match. -/
theorem find?_updateFirst (p : Task → Bool) (f : Task → Task)
    (hpf : ∀ t, p (f t) = p t) (l : List Task) :
    (updateFirst p f l).find? p = (l.find? p).map f := by
  induction l with
  | nil => simp [updateFirst]
  | cons a rest ih =>
    by_cases ha : p a = true
    · simp [updateFirst, ha, List.find?, hpf]
    · have ha' : p a = false := by
        cases h : p a
        · rfl
        · exact absurd h ha
      simp [updateFirst, ha', List.find?, ih]

/-- When a projection is unchanged by the update function, `updateFirst`
leaves the projected list unchanged. -/
theorem map_updateFirst {α : Type} (p : Task → Bool) (f : Task → Task)
    (g : Task → α) (hg : ∀ t, g (f t) = g t) (l : List Task) :
    (updateFirst p f l).map g = l.map g := by
  induction l with
  | nil => rfl
  | cons a rest ih =>
    by_cases ha : p a = true
    · simp [updateFirst, ha, hg]
    · have ha' : p a = false := by
        cases h : p a
        · rfl
        · exact absurd h ha
      simp [updateFirst, ha', ih]

/-- C10: `quickComplete` on a present id rewrites the first task carrying
that id to `status = "done"`, `progress = 100`, fresh `updatedAt`, leaves
every other task and every other store field unchanged; on an absent id
it is a no-op. -/
theorem quickComplete_spec (taskId now : String) :
    (∀ (store : Store) (pre post : List Task) (t0 : Task),
      store.tasks = pre ++ t0 :: post →
      (∀ t ∈ pre, t.id ≠ taskId) → t0.id = taskId →
      quickComplete store taskId now =
        { store with
            tasks := pre ++
              { t0 with status := "done", progress := 100, updatedAt := now } :: post }) ∧
    (∀ store : Store, (∀ t ∈ store.tasks, t.id ≠ taskId) →
      quickComplete store taskId now = store) := by
  constructor
  · intro store pre post t0 htasks hpre ht0
    have hpre' : ∀ t ∈ pre, (t.id == taskId) = false := by
      intro t ht
      simp [hpre t ht]
    have ht0' : (t0.id == taskId) = true := by simp [ht0]
    have hfind : findTask store.tasks taskId = some t0 := by
      rw [findTask, htasks]
      exact find?_first _ pre post t0 hpre' ht0'
    rw [quickComplete, hfind, htasks]
    rw [updateFirst_first _ _ pre post t0 hpre' ht0']
  · intro store h
    have hfind : findTask store.tasks taskId = none := by
      rw [findTask, List.find?_eq_none]
      intro t ht
      simp [h t ht]
    rw [quickComplete, hfind]

/-- C10 witness: quick-completing the concrete task rewrites exactly its
status, progress and timestamp. -/
theorem quickComplete_spec_witness :
    quickComplete sampleStore "task-1" "2025-06-02T09:30:00Z" =
      { sampleStore with
          tasks := [] ++
            { sampleTask with
                status := "done", progress := 100,
                updatedAt := "2025-06-02T09:30:00Z" } :: [] } ∧
    quickComplete sampleStore "task-404" "2025-06-02T09:30:00Z" = sampleStore :=
  ⟨(quickComplete_spec "task-1" "2025-06-02T09:30:00Z").1 sampleStore [] [] sampleTask
      rfl (by decide) (by decide),
    (quickComplete_spec "task-404" "2025-06-02T09:30:00Z").2 sampleStore (by decide)⟩

/-- C1 counterexample: editing the status field to `"done"` through the
detail editor does not force the task's progress to 100 — the concrete
task keeps its progress of 50. -/
theorem editor_done_skips_progress :
    ¬ (∀ t ∈ (editorFieldChange sampleStore "task-1" "status" "done"
        "2025-06-02T10:00:00Z").tasks,
      t.status = "done" → t.progress = 100) := by decide

/-- C1 (amended): a drag-drop transition into `"done"`
(`updateTaskStatus`) and the quick action (`quickComplete`) both force
the affected task's progress to 100 — the first task carrying the id ends
as its done-completed update — while a detail-editor status edit leaves
every task's progress unchanged. -/
theorem done_forces_progress_amended (store : Store) (taskId now : String) :
    ((updateTaskStatus store taskId "done" now).tasks.find? (fun t => t.id == taskId) =
      (store.tasks.find? (fun t => t.id == taskId)).map
        (fun t => { t with status := "done", progress := 100, updatedAt := now })) ∧
    ((quickComplete store taskId now).tasks.find? (fun t => t.id == taskId) =
      (store.tasks.find? (fun t => t.id == taskId)).map
        (fun t => { t with status := "done", progress := 100, updatedAt := now })) ∧
    (∀ value, (editorFieldChange store taskId "status" value now).tasks.map Task.progress =
      store.tasks.map Task.progress) := by
  refine ⟨?_, ?_, ?_⟩
  · rw [updateTaskStatus]
    cases hfind : findTask store.tasks taskId with
    | none =>
      rw [findTask] at hfind
      simp [hfind]
    | some t =>
      have := find?_updateFirst (fun t => t.id == taskId)
        (fun t =>
          { t with
            status := "done"
            progress := if "done" == "done" then 100 else t.progress
            updatedAt := now })
        (fun t => rfl) store.tasks
      simpa using this
  · rw [quickComplete]
    cases hfind : findTask store.tasks taskId with
    | none =>
      rw [findTask] at hfind
      simp [hfind]
    | some t =>
      exact find?_updateFirst (fun t => t.id == taskId)
        (fun t => { t with status := "done", progress := 100, updatedAt := now })
        (fun t => rfl) store.tasks
  · intro value
    rw [editorFieldChange]
    cases hfind : findTask store.tasks taskId with
    | none => rfl
    | some t =>
      exact map_updateFirst (fun t => t.id == taskId)
        (fun t => { setField t "status" value with updatedAt := now })
        Task.progress (fun t => rfl) store.tasks

/-- Normalizing to midnight lands on a whole number of days. -/
theorem setMidnight_eq (t : Int) : setMidnight t = msPerDay * dayIndex t := by
  rw [setMidnight, dayIndex]
  have h : msPerDay = 86400000 := by norm_num [msPerDay]
  rw [h]
  omega

/-- The day difference computed by `formatDeadline` is the difference of
calendar-day indices. -/
theorem deadline_diff_eq (deadline now : Int) :
    (setMidnight deadline - setMidnight now) / msPerDay =
      dayIndex deadline - dayIndex now := by
  rw [setMidnight_eq, setMidnight_eq, ← mul_sub]
  exact Int.mul_ediv_cancel_left _ (by norm_num [msPerDay])

/-- C5: `formatDeadline` normalizes deadline and current instant to
midnight, takes the day difference, and classifies negative as
`"overdue"`, zero as `"today"`, positive as `"future"`; in particular a
deadline of 2025-01-01 seen from an instant during 2025-01-02 is
overdue. -/
theorem deadline_badge_classification :
    (∀ deadline now : Int,
      (deadlineClass deadline now = "overdue" ↔ dayIndex deadline < dayIndex now) ∧
      (deadlineClass deadline now = "today" ↔ dayIndex deadline = dayIndex now) ∧
      (deadlineClass deadline now = "future" ↔ dayIndex now < dayIndex deadline)) ∧
    deadlineClass (msOfDate 2025 1 1) (msOfDate 2025 1 2 + 7200000) = "overdue" := by
  constructor
  · intro deadline now
    rw [deadlineClass]
    simp only [deadline_diff_eq]
    rcases lt_trichotomy (dayIndex deadline) (dayIndex now) with h | h | h
    · rw [if_pos (by omega)]
      refine ⟨⟨fun _ => h, fun _ => rfl⟩, ⟨fun hs => absurd hs (by decide), fun he => by omega⟩,
        ⟨fun hs => absurd hs (by decide), fun he => by omega⟩⟩
    · rw [if_neg (by omega), if_pos (by simp [h])]
      refine ⟨⟨fun hs => absurd hs (by decide), fun he => by omega⟩, ⟨fun _ => h, fun _ => rfl⟩,
        ⟨fun hs => absurd hs (by decide), fun he => by omega⟩⟩
    · rw [if_neg (by omega), if_neg (by simp; omega)]
      refine ⟨⟨fun hs => absurd hs (by decide), fun he => by omega⟩,
        ⟨fun hs => absurd hs (by decide), fun he => by omega⟩, ⟨fun _ => h, fun _ => rfl⟩⟩
  · decide

/-- Running a concatenated trace runs the pieces in order. -/
theorem runEvents_append (s : SaveState) (es1 es2 : List SaveEvent) :
    runEvents s (es1 ++ es2) = runEvents (runEvents s es1) es2 :=
  List.foldl_append stepEvent s es1 es2

/-- A burst of debounced `saveData` calls leaves the timer armed for the
last call's deadline, performs one offline write per call, and performs
no remote write. -/
theorem saves_phase (rest : List Int) (t1 : Int) (s : SaveState) :
    runEvents s ((t1 :: rest).map (fun t => SaveEvent.save t false)) =
      { pending := some ((t1 :: rest).getLast (List.cons_ne_nil t1 rest) + debounceMs)
        localWrites := s.localWrites + rest.length + 1
        remoteWrites := s.remoteWrites } := by
  induction rest generalizing t1 s with
  | nil => rfl
  | cons t2 rs ih =>
    have step : runEvents s ((t1 :: t2 :: rs).map (fun t => SaveEvent.save t false)) =
        runEvents (saveData t1 false s) ((t2 :: rs).map (fun t => SaveEvent.save t false)) := rfl
    rw [step, ih]
    have hlast : (t1 :: t2 :: rs).getLast (List.cons_ne_nil t1 (t2 :: rs)) =
        (t2 :: rs).getLast (List.cons_ne_nil t2 rs) :=
      List.getLast_cons (List.cons_ne_nil t2 rs)
    rw [hlast]
    simp only [saveData, List.length_cons, Bool.false_eq_true, if_false,
      SaveState.mk.injEq]
    exact ⟨trivial, by omega, trivial⟩

/-- Timer callbacks whose deadline is not the armed one do not fire. -/
theorem fires_noop (us : List Int) (s : SaveState) (D : Int)
    (hp : s.pending = some D) (hne : ∀ u ∈ us, u ≠ D) :
    runEvents s (us.map SaveEvent.fire) = s := by
  induction us with
  | nil => rfl
  | cons u rest ih =>
    have hstep : runEvents s ((u :: rest).map SaveEvent.fire) =
        runEvents (timerFire u s) (rest.map SaveEvent.fire) := rfl
    have hD : D ≠ u := Ne.symm (hne u (by simp))
    have hfire : timerFire u s = s := by
      simp [timerFire, hp, hD]
    rw [hstep, hfire]
    exact ih (fun u hu => hne u (by simp [hu]))

/-- C3: a strictly increasing burst of debounced `saveData` calls inside
one 1-second window, followed by the attempts of all the timers they
armed, performs exactly one remote write; a debounced call arms (resets)
the timer to its own deadline without writing remotely; an
`immediate = true` call clears any pending timer and writes remotely at
once; and every 30-second autosave tick is such an immediate save. -/
theorem save_debounce_coalesce :
    (∀ (t1 : Int) (rest : List Int) (s0 : SaveState),
      List.Pairwise (fun a b => a < b) (t1 :: rest) →
      (t1 :: rest).getLast (List.cons_ne_nil t1 rest) - t1 < debounceMs →
      (runEvents s0 ((t1 :: rest).map (fun t => SaveEvent.save t false) ++
        (t1 :: rest).map (fun t => SaveEvent.fire (t + debounceMs)))).remoteWrites =
        s0.remoteWrites + 1) ∧
    (∀ (now : Int) (s : SaveState),
      (saveData now false s).pending = some (now + debounceMs) ∧
      (saveData now false s).remoteWrites = s.remoteWrites) ∧
    (∀ (now : Int) (s : SaveState),
      (saveData now true s).remoteWrites = s.remoteWrites + 1 ∧
      (saveData now true s).pending = none) ∧
    (∀ (k : Nat) (s : SaveState),
      (autosaveTick k s).remoteWrites = s.remoteWrites + 1 ∧
      (autosaveTick k s).pending = none) := by
  refine ⟨?_, fun now s => ⟨rfl, rfl⟩, fun now s => ⟨rfl, rfl⟩, fun k s => ⟨rfl, rfl⟩⟩
  intro t1 rest s0 hpair hwin
  have hne : (t1 :: rest) ≠ [] := List.cons_ne_nil t1 rest
  rw [runEvents_append, saves_phase]
  have hsplit : t1 :: rest =
      (t1 :: rest).dropLast ++ [(t1 :: rest).getLast hne] :=
    (List.dropLast_append_getLast hne).symm
  have hmap : (t1 :: rest).map (fun t => SaveEvent.fire (t + debounceMs)) =
      ((t1 :: rest).dropLast.map (fun t => t + debounceMs)).map SaveEvent.fire ++
        [SaveEvent.fire ((t1 :: rest).getLast hne + debounceMs)] := by
    conv_lhs => rw [hsplit]
    rw [List.map_append, List.map_map]
    rfl
  rw [hmap, runEvents_append]
  have hlt : ∀ x ∈ (t1 :: rest).dropLast, x < (t1 :: rest).getLast hne := by
    have hp2 := hsplit ▸ hpair
    rw [List.pairwise_append] at hp2
    intro x hx
    exact hp2.2.2 x hx ((t1 :: rest).getLast hne) (by simp)
  rw [fires_noop ((t1 :: rest).dropLast.map (fun t => t + debounceMs)) _
    ((t1 :: rest).getLast hne + debounceMs) rfl ?_]
  · simp [runEvents, stepEvent, timerFire]
  · intro u hu
    rcases List.mem_map.mp hu with ⟨x, hx, rfl⟩
    have := hlt x hx
    omega

/-- C3 witness: three debounced saves at 0, 300 and 600 ms followed by
their timer attempts yield exactly one remote write. -/
theorem save_debounce_coalesce_witness :
    (runEvents { pending := none, localWrites := 0, remoteWrites := 0 }
      ((0 :: [300, 600]).map (fun t => SaveEvent.save t false) ++
        (0 :: [300, 600]).map (fun t => SaveEvent.fire (t + debounceMs)))).remoteWrites =
      0 + 1 :=
  save_debounce_coalesce.1 0 [300, 600]
    { pending := none, localWrites := 0, remoteWrites := 0 } (by decide) (by decide)

/-- String arrays survive the serialization round trip. -/
theorem decodeStrs_map (l : List String) :
    decodeStrs (l.map Json.jstr) = some l := by
  induction l with
  | nil => rfl
  | cons a rest ih => simp [decodeStrs, ih]

/-- A task survives the serialization round trip. -/
theorem decodeTask_encodeTask (t : Task) : decodeTask (encodeTask t) = some t := by
  rcases t with ⟨id, title, project, assignee, status, priority, deadline, effort,
    progress, nextAction, tags, notes, createdAt, updatedAt⟩
  cases deadline <;>
    simp [encodeTask, decodeTask, getField, asStr, asOptStr, asNat, decodeStrs_map]

/-- A task list survives the serialization round trip. -/
theorem decodeTasks_encodeTasks (ts : List Task) :
    decodeTasks (encodeTasks ts) = some ts := by
  induction ts with
  | nil => rfl
  | cons t rest ih =>
    rw [encodeTasks] at ih
    simp [encodeTasks, decodeTasks, decodeTask_encodeTask, ih]

/-- A full store survives the serialization round trip. -/
theorem decodeStore_encodeStore (s : Store) : decodeStore (encodeStore s) = some s := by
  rcases s with ⟨tasks, projects, assignees, ⟨theme, defaultView, defaultCalendarView⟩, lastSync⟩
  simp [encodeStore, decodeStore, getField, asStr, decodeStrs_map, decodeTasks_encodeTasks]

/-- C4: `saveData` writes the serialized store to the offline cache even
when the remote write fails, and `loadData` under an unreachable remote
falls back to that cache — yielding the very store that was saved. -/
theorem save_load_offline_roundtrip (store : Store) :
    loadData none (some (saveOffline store)) = some store := by
  rw [loadData, saveOffline]
  exact decodeStore_encodeStore store

end MC
